import Mathlib

/-!
# A shallow embedding of `subfix` (`src/subfix/subfix.py`)

The program is a batch subtitle fixer working inside a single directory.
We model that directory as an association list from file names to byte
contents, together with a set of names on which byte-writes are denied by
the operating system (modelling `PermissionError`) and a structured log.
Since every operation works inside one directory and Python sorts paths by
the full path string (whose directory prefix is common to all entries),
file names stand in for paths throughout.

Python `pathlib` name manipulation (`suffix`, `stem`, `with_suffix`,
`with_name`) is reproduced on strings, following the reference
implementation of `pathlib` (`rfind('.')` with the `0 < i < len - 1`
guard).  `dir.glob("*.ext")` matches exactly the names ending in `.ext`,
in unspecified directory order, which the order of the association list
stands for.  Encodings and the `pysrt` library are external dependencies
of the program and are abstracted as function parameters.

Exceptions are modelled by an error component in each result: an operation
returns the state as mutated so far together with `none` (normal return)
or `some e` (the exception `e` propagated, aborting the rest of the
batch).
-/

namespace Subfix

abbrev Bytes := List Nat

/-! ## Python `pathlib` name helpers -/

/-- Index of the last `'.'` in a list of characters (Python `str.rfind('.')`),
`none` when there is no dot. -/
def rfindDot (l : List Char) : Option Nat :=
  match l.reverse.findIdx? (fun c => c = '.') with
  | none => none
  | some j => some (l.length - 1 - j)

/-- Python `PurePath.suffix`: the final extension of the file name, empty
unless the last dot sits strictly inside the name. -/
def suffix (name : String) : String :=
  match rfindDot name.data with
  | none => ""
  | some i =>
      if 0 < i ∧ i < name.data.length - 1 then ⟨name.data.drop i⟩ else ""

/-- Python `PurePath.stem`: the file name without its final extension. -/
def stem (name : String) : String :=
  match rfindDot name.data with
  | none => name
  | some i =>
      if 0 < i ∧ i < name.data.length - 1 then ⟨name.data.take i⟩ else name

/-- Python `PurePath.with_suffix`: replace (or append, when there is none)
the final extension. -/
def withSuffix (name newSuf : String) : String :=
  if suffix name = "" then name ++ newSuf
  else ⟨name.data.take (name.data.length - (suffix name).data.length)⟩ ++ newSuf

/-! ## Filesystem state -/

inductive LogEntry where
  | error (msg : String)
  | warning (msg : String)
  | info (msg : String)
deriving DecidableEq, Repr

inductive PyError where
  | attributeError
  | permissionError (path : String)
  | fileNotFound (path : String)
deriving DecidableEq, Repr

/-- The working directory: files with their byte contents, the names the OS
refuses to write to, and the log emitted so far. -/
structure Sys where
  files : List (String × Bytes)
  locked : List String
  log : List LogEntry
deriving DecidableEq, Repr

/-- Result of an operation: the state as mutated so far, plus the exception
that propagated out of it, if any. -/
abbrev Res := Sys × Option PyError

def names (files : List (String × Bytes)) : List String := files.map (·.1)

def lookupFile (files : List (String × Bytes)) (name : String) : Option Bytes :=
  (files.find? (fun kv => kv.1 = name)).map (·.2)

def setFile (files : List (String × Bytes)) (name : String) (c : Bytes) :
    List (String × Bytes) :=
  if name ∈ names files then
    files.map (fun kv => if kv.1 = name then (name, c) else kv)
  else files ++ [(name, c)]

def removeFile (files : List (String × Bytes)) (name : String) :
    List (String × Bytes) :=
  files.filter (fun kv => decide (kv.1 ≠ name))

/-- `path.write_bytes(c)`: denied on locked names (`PermissionError`). -/
def writeBytes (s : Sys) (name : String) (c : Bytes) : Res :=
  if name ∈ s.locked then (s, some (.permissionError name))
  else ({ s with files := setFile s.files name c }, none)

/-- `src.replace(dst)` (`os.replace`): move `src` onto `dst`, overwriting
`dst`; raises `FileNotFoundError` when `src` does not exist. -/
def replaceFile (s : Sys) (src dst : String) : Res :=
  match lookupFile s.files src with
  | none => (s, some (.fileNotFound src))
  | some c => ({ s with files := setFile (removeFile s.files src) dst c }, none)

def logError (s : Sys) (m : String) : Sys := { s with log := s.log ++ [.error m] }

def logWarning (s : Sys) (m : String) : Sys := { s with log := s.log ++ [.warning m] }

def logInfo (s : Sys) (m : String) : Sys := { s with log := s.log ++ [.info m] }

/-! ## Directory scanning (`movies`, `subtitles`, `subtitle_backups`) -/

/-- Code-point lexicographic comparison of character sequences: exactly
Python's `str` comparison. -/
def lexLe : List Char → List Char → Bool
  | [], _ => true
  | _ :: _, [] => false
  | a :: as, b :: bs =>
      if a < b then true else if b < a then false else lexLe as bs

/-- Comparison used by `sorted(..., key=lambda p: str(p).lower())`:
compare the lowercased names (ASCII lowering, as Python's `str.lower` on
the ASCII names involved). -/
def lowerLe (a b : String) : Bool :=
  lexLe (a.data.map Char.toLower) (b.data.map Char.toLower)

def ciLe (a b : String) : Prop := lowerLe a b = true

instance instCiLeDecidable : DecidableRel ciLe :=
  fun a b => inferInstanceAs (Decidable (lowerLe a b = true))

/-- Python `sorted` with the case-insensitive key: a stable sort by
`ciLe` (any stable sort models `sorted`; the directory order the sort is
applied to is unspecified anyway). -/
def sortCI (l : List String) : List String := List.insertionSort ciLe l

def strEndsWith (s t : String) : Bool := t.data.isSuffixOf s.data

/-- `dir.glob(pat)` for the patterns used here, all of the form `*.ext`:
the names ending in `.ext`, in directory order. -/
def globMatches (files : List (String × Bytes)) (pat : String) : List String :=
  (files.filter (fun kv => strEndsWith kv.1 (pat.drop 1))).map (·.1)

/-- `sum((sorted(dir.glob(ext), key=...) for ext in pats), [])`. -/
def scanDir (files : List (String × Bytes)) (pats : List String) : List String :=
  (pats.map (fun pat => sortCI (globMatches files pat))).foldl (· ++ ·) []

def BACKUP_EXT : String := ".bkp"

def MOVIE_EXTS : List String := ["*.mkv", "*.avi", "*.mp4"]

def SUB_EXTS : List String := ["*.srt", "*.sub"]

def SUB_BKP_EXTS : List String := SUB_EXTS.map (fun ext => ext ++ BACKUP_EXT)

def movies (files : List (String × Bytes)) : List String :=
  scanDir files MOVIE_EXTS

def subtitles (files : List (String × Bytes)) : List String :=
  scanDir files SUB_EXTS

def subtitle_backups (files : List (String × Bytes)) : List String :=
  scanDir files SUB_BKP_EXTS

/-- Python list slicing `l[start:stop]` for the non-negative indices the
operations are invoked with (`stop = none` is Python's `None`). -/
def pySlice (start : Nat) (stop : Option Nat) (l : List α) : List α :=
  match stop with
  | none => l.drop start
  | some e => (l.take e).drop start

/-! ## The operations  -/

/-- A text encoding, as seen through Python `bytes.decode` / `str.encode`:
decoding may fail, encoding of a decoded text is total.  Texts are
sequences of code points. -/
structure Encoding where
  decode : Bytes → Option Bytes
  encode : Bytes → Bytes

/-- The log messages of the program, named so that lemmas can align on
them syntactically. -/
def backedUpMsg (subtitle bkp : String) : String :=
  s!"Backed up {subtitle} as {bkp}"

def skippedBackupMsg (subtitle : String) : String :=
  s!"Skipping backup of {subtitle} as it already exists"

def notEncodedMsg (sub srcName : String) : String :=
  s!"{sub} is not encoded as {srcName}"

def reEncodedMsg (sub tgtName : String) : String :=
  s!"Re-encoded {sub} as {tgtName}"

def renamedMsg (sub newsub : String) : String :=
  s!"Renamed {sub} to {newsub}"

def restoredMsg (sub newsub : String) : String :=
  s!"Restored {sub} as {newsub}"

def shiftedMsg (sub : String) : String :=
  s!"Shifted {sub}"

/-- `SubtitleFixer.backup`: compute the backup name via
`subtitle.with_suffix(f"{subtitle.suffix}{BACKUP_EXT}")`; if it exists and
`force` is not set, warn and skip; otherwise copy the subtitle's bytes to
the backup name. -/
def backup (s : Sys) (subtitle : String) (force : Bool) : Res :=
  let bkp := withSuffix subtitle (suffix subtitle ++ BACKUP_EXT)
  if bkp ∈ names s.files ∧ force = false then
    (logWarning s (skippedBackupMsg subtitle), none)
  else
    match lookupFile s.files subtitle with
    | none => (s, some (.fileNotFound subtitle))
    | some c =>
      match writeBytes s bkp c with
      | (s1, none) => (logInfo s1 (backedUpMsg subtitle bkp), none)
      | r => r

/-- Loop body of `SubtitleFixer.recode`.  `sub.read_text(encoding=source)`
is `(lookupFile …).bind A.decode`; any of its failures (missing file or
decode error) is caught by the `except Exception` clause, which logs an
error and moves on.  The backup and the re-encoded write sit outside the
`try` block, so their exceptions propagate. -/
def recodeLoop (A B : Encoding) (srcName tgtName : String) (force : Bool) :
    Sys → List String → Res
  | s, [] => (s, none)
  | s, sub :: rest =>
    match (lookupFile s.files sub).bind A.decode with
    | none =>
        recodeLoop A B srcName tgtName force
          (logError s (notEncodedMsg sub srcName)) rest
    | some text =>
      match backup s sub force with
      | (s1, none) =>
        match writeBytes s1 sub (B.encode text) with
        | (s2, none) =>
            recodeLoop A B srcName tgtName force
              (logInfo s2 (reEncodedMsg sub tgtName)) rest
        | r => r
      | r => r

/-- `SubtitleFixer.recode`: an explicit non-empty `subtitle` argument gives
a one-element list, otherwise the directory is scanned; the
`[start_index:stop_index]` slice is applied to either list. -/
def recode (s : Sys) (subtitle : Option String) (A B : Encoding)
    (srcName tgtName : String) (start : Nat) (stop : Option Nat)
    (force : Bool) : Res :=
  let subs := match subtitle with
    | some p => if p = "" then subtitles s.files else [p]
    | none => subtitles s.files
  recodeLoop A B srcName tgtName force s (pySlice start stop subs)

/-- Loop body of `SubtitleFixer.rename`: `newsub` is
`sub.with_name(movie.stem + sub.suffix)`; when it differs from `sub`, back
up (no exception handling) and move `sub` onto `newsub`. -/
def renameLoop (force : Bool) : Sys → List (String × String) → Res
  | s, [] => (s, none)
  | s, (sub, movie) :: rest =>
    let newsub := stem movie ++ suffix sub
    if sub = newsub then renameLoop force s rest
    else
      match backup s sub force with
      | (s1, none) =>
        match replaceFile s1 sub newsub with
        | (s2, none) =>
            renameLoop force (logInfo s2 (renamedMsg sub newsub)) rest
        | r => r
      | r => r

/-- `SubtitleFixer.rename`: iterate over
`list(zip(self.subtitles(dir), self.movies(dir)))[start_index:stop_index]`. -/
def rename (s : Sys) (start : Nat) (stop : Option Nat) (force : Bool) : Res :=
  renameLoop force s
    (pySlice start stop ((subtitles s.files).zip (movies s.files)))

/-- Loop body of `SubtitleFixer.restore`: strip the backup suffix with
`sub.with_suffix("")` and move the backup onto that name. -/
def restoreLoop : Sys → List String → Res
  | s, [] => (s, none)
  | s, sub :: rest =>
    let newsub := withSuffix sub ""
    match replaceFile s sub newsub with
    | (s1, none) => restoreLoop (logInfo s1 (restoredMsg sub newsub)) rest
    | r => r

/-- `SubtitleFixer.restore`: explicit non-empty `subtitle` gives a
one-element list, otherwise the backups are scanned; the slice is applied
to either list. -/
def restore (s : Sys) (subtitle : Option String) (start : Nat)
    (stop : Option Nat) : Res :=
  let subs := match subtitle with
    | some p => if p = "" then subtitle_backups s.files else [p]
    | none => subtitle_backups s.files
  restoreLoop s (pySlice start stop subs)

/-- Python values reaching `shift`'s subtitle parameter: the CLI may pass a
plain string, code may pass a `pathlib.Path`.  `shift` forwards the value
unconverted. -/
inductive PathLike where
  | str (v : String)
  | path (v : String)
deriving DecidableEq, Repr

/-- Python truthiness of the argument (`if not subtitle:`): only the empty
string is falsy among the values modelled. -/
def PathLike.truthy : PathLike → Bool
  | .str v => !(v == "")
  | .path _ => true

def PathLike.pathStr : PathLike → String
  | .str v => v
  | .path v => v

/-- `backup` as reached from `shift`: its first statement is
`subtitle.with_suffix(...)`, which raises `AttributeError` when the
argument is a plain string (`str` has no `with_suffix`). -/
def backupDyn (s : Sys) (subtitle : PathLike) (force : Bool) : Res :=
  match subtitle with
  | .str _ => (s, some .attributeError)
  | .path p => backup s p force

/-- Loop body of `SubtitleFixer.shift`.  The `pysrt`
open/shift-by-`by`/save round trip is abstracted as `shiftFn` on the
file's bytes; opening a missing file raises. -/
def shiftLoop (shiftFn : Bytes → Bytes) (force : Bool) :
    Sys → List PathLike → Res
  | s, [] => (s, none)
  | s, subtitle :: rest =>
    match backupDyn s subtitle force with
    | (s1, none) =>
      match lookupFile s1.files subtitle.pathStr with
      | none => (s1, some (.fileNotFound subtitle.pathStr))
      | some c =>
        match writeBytes s1 subtitle.pathStr (shiftFn c) with
        | (s2, none) =>
            shiftLoop shiftFn force (logInfo s2 (shiftedMsg subtitle.pathStr)) rest
        | r => r
    | r => r

/-- `SubtitleFixer.shift`: when no truthy `subtitle` is given, the scanned
list is sliced; an explicit truthy `subtitle` is processed as a
one-element list with NO slice applied. -/
def shift (s : Sys) (subtitle : Option PathLike) (start : Nat)
    (stop : Option Nat) (force : Bool) (shiftFn : Bytes → Bytes) : Res :=
  let subs : List PathLike := match subtitle with
    | some p =>
        if p.truthy then [p]
        else (pySlice start stop (subtitles s.files)).map .path
    | none => (pySlice start stop (subtitles s.files)).map .path
  shiftLoop shiftFn force s subs

/-! ## Basic lemmas about the path helpers -/

theorem str_append_data (a b : String) : (a ++ b).data = a.data ++ b.data := rfl

theorem str_mk_append (a b : List Char) :
    (⟨a⟩ : String) ++ (⟨b⟩ : String) = ⟨a ++ b⟩ := rfl

theorem str_append_empty (a : String) : a ++ "" = a := by
  apply String.ext; simp [str_append_data]

theorem stem_append_suffix (name : String) : stem name ++ suffix name = name := by
  unfold stem suffix
  cases h : rfindDot name.data with
  | none => exact str_append_empty name
  | some i =>
      dsimp only
      by_cases hc : 0 < i ∧ i < name.data.length - 1
      · rw [if_pos hc, if_pos hc, str_mk_append]
        apply String.ext
        simp

      · rw [if_neg hc, if_neg hc]
        exact str_append_empty name

theorem suffix_ne_empty_shape (name : String) (h : suffix name ≠ "") :
    ∃ i, rfindDot name.data = some i ∧ 0 < i ∧ i < name.data.length - 1 ∧
      suffix name = ⟨name.data.drop i⟩ := by
  unfold suffix at h ⊢
  cases hr : rfindDot name.data with
  | none => simp [hr] at h
  | some i =>
      rw [hr] at h
      dsimp only at h ⊢
      by_cases hc : 0 < i ∧ i < name.data.length - 1
      · exact ⟨i, rfl, hc.1, hc.2, by rw [if_pos hc]⟩
      · rw [if_neg hc] at h; simp at h

theorem withSuffix_eq_stem_append (name s : String) :
    withSuffix name s = stem name ++ s := by
  unfold withSuffix
  by_cases h : suffix name = ""
  · rw [if_pos h]
    have hstem : stem name = name := by
      have h2 := stem_append_suffix name
      rw [h, str_append_empty] at h2
      exact h2
    rw [hstem]
  · rw [if_neg h]
    obtain ⟨i, hr, hi0, hilt, hsuf⟩ := suffix_ne_empty_shape name h
    have hlen : (suffix name).data.length = name.data.length - i := by
      rw [hsuf]; simp
    have hstem : stem name = ⟨name.data.take i⟩ := by
      unfold stem; rw [hr]; dsimp only; rw [if_pos ⟨hi0, hilt⟩]
    rw [hlen, hstem]
    congr 2
    have hile : i ≤ name.data.length := by omega
    rw [Nat.sub_sub_self hile]

theorem withSuffix_bkp (sub : String) :
    withSuffix sub (suffix sub ++ BACKUP_EXT) = sub ++ ".bkp" := by
  rw [withSuffix_eq_stem_append, ← String.append_assoc, stem_append_suffix]
  rfl

theorem rfindDot_append_bkp (l : List Char) :
    rfindDot (l ++ ['.', 'b', 'k', 'p']) = some l.length := by
  unfold rfindDot
  rw [List.reverse_append]
  have : (['.', 'b', 'k', 'p'].reverse ++ l.reverse).findIdx?
      (fun c => decide (c = '.')) = some 3 := by
    simp [List.findIdx?_append, List.findIdx?]
  rw [this]
  simp

theorem suffix_append_bkp (sub : String) (h : sub ≠ "") :
    suffix (sub ++ ".bkp") = ".bkp" := by
  have hdata : (sub ++ ".bkp").data = sub.data ++ ['.', 'b', 'k', 'p'] := rfl
  have hne : sub.data ≠ [] := fun hc => h (String.ext hc)
  have hpos : 0 < sub.data.length := List.length_pos.mpr hne
  unfold suffix
  rw [hdata, rfindDot_append_bkp]
  dsimp only
  have hc : 0 < sub.data.length ∧
      sub.data.length < (sub.data ++ ['.', 'b', 'k', 'p']).length - 1 := by
    refine ⟨hpos, ?_⟩
    simp
  rw [if_pos hc]
  apply String.ext
  simp

theorem withSuffix_append_bkp (sub : String) (h : sub ≠ "") :
    withSuffix (sub ++ ".bkp") "" = sub := by
  unfold withSuffix
  have hsuf := suffix_append_bkp sub h
  rw [if_neg (by rw [hsuf]; intro hc; exact absurd (congrArg String.data hc) (by simp))]
  rw [hsuf]
  have hdata : (sub ++ ".bkp").data = sub.data ++ ['.', 'b', 'k', 'p'] := rfl
  rw [str_append_empty, hdata]
  apply String.ext
  show (sub.data ++ ['.', 'b', 'k', 'p']).take
      ((sub.data ++ ['.', 'b', 'k', 'p']).length - (String.data ".bkp").length) = sub.data
  have : (sub.data ++ ['.', 'b', 'k', 'p']).length - (String.data ".bkp").length
      = sub.data.length := by simp
  rw [this, List.take_left]

theorem append_bkp_ne_empty (sub : String) : sub ++ ".bkp" ≠ "" := by
  intro h
  have := congrArg String.data h
  simp [str_append_data] at this

/-! ## Last-character facts used to separate the file-name classes -/

theorem ne_of_getLast? {a b : String}
    (h : a.data.getLast? ≠ b.data.getLast?) : a ≠ b :=
  fun e => h (by rw [e])

theorem strEndsWith_getLast? (s t : String) (h : strEndsWith s t = true)
    (hne : t.data ≠ []) : s.data.getLast? = t.data.getLast? := by
  unfold strEndsWith at h
  rw [List.isSuffixOf_iff_suffix] at h
  obtain ⟨d, hd⟩ := h
  rw [← hd, List.getLast?_append]
  cases ht : t.data.getLast? with
  | none => exact absurd (List.getLast?_eq_none_iff.mp ht) hne
  | some a => simp

theorem append_bkp_getLast? (x : String) :
    (x ++ ".bkp").data.getLast? = some 'p' := by
  rw [str_append_data, List.getLast?_append]
  rfl

/-- The shape of names produced by `dir.glob("*.srt")` or `dir.glob("*.sub")`. -/
def subtitleName (x : String) : Prop :=
  strEndsWith x ".srt" = true ∨ strEndsWith x ".sub" = true

/-- The shape of names produced by the movie globs. -/
def movieName (x : String) : Prop :=
  strEndsWith x ".mkv" = true ∨ strEndsWith x ".avi" = true ∨
    strEndsWith x ".mp4" = true

theorem subtitleName_getLast? (x : String) (h : subtitleName x) :
    x.data.getLast? = some 't' ∨ x.data.getLast? = some 'b' := by
  cases h with
  | inl h => exact Or.inl (by rw [strEndsWith_getLast? x ".srt" h (by simp)]; rfl)
  | inr h => exact Or.inr (by rw [strEndsWith_getLast? x ".sub" h (by simp)]; rfl)

theorem movieName_getLast? (x : String) (h : movieName x) :
    x.data.getLast? = some 'v' ∨ x.data.getLast? = some 'i' ∨
      x.data.getLast? = some '4' := by
  rcases h with h | h | h
  · exact Or.inl (by rw [strEndsWith_getLast? x ".mkv" h (by simp)]; rfl)
  · exact Or.inr (Or.inl (by rw [strEndsWith_getLast? x ".avi" h (by simp)]; rfl))
  · exact Or.inr (Or.inr (by rw [strEndsWith_getLast? x ".mp4" h (by simp)]; rfl))

theorem subtitleName_ne_bkp (x y : String) (h : subtitleName x) :
    x ≠ y ++ ".bkp" := by
  apply ne_of_getLast?
  rw [append_bkp_getLast?]
  rcases subtitleName_getLast? x h with h' | h' <;> simp [h']

theorem movieName_ne_bkp (x y : String) (h : movieName x) :
    x ≠ y ++ ".bkp" := by
  apply ne_of_getLast?
  rw [append_bkp_getLast?]
  rcases movieName_getLast? x h with h' | h' | h' <;> simp [h']

theorem movieName_ne_subtitleName (x y : String) (hx : movieName x)
    (hy : subtitleName y) : x ≠ y := by
  apply ne_of_getLast?
  rcases movieName_getLast? x hx with h' | h' | h' <;>
    rcases subtitleName_getLast? y hy with h'' | h'' <;> simp [h', h'']

theorem append_bkp_injective (a b : String) (h : a ++ ".bkp" = b ++ ".bkp") :
    a = b := by
  have := congrArg String.data h
  rw [str_append_data, str_append_data] at this
  exact String.ext (List.append_cancel_right this)

/-! ## Lookup, set and remove lemmas -/

theorem lookupFile_nil (x : String) : lookupFile [] x = none := rfl

theorem lookupFile_eq_none_iff (fs : List (String × Bytes)) (x : String) :
    lookupFile fs x = none ↔ x ∉ names fs := by
  unfold lookupFile names
  simp only [Option.map_eq_none', List.find?_eq_none, List.mem_map,
    decide_eq_true_eq, not_exists]
  constructor
  · intro h kv hn
    exact h kv hn.1 hn.2
  · intro h kv hkv hx
    exact h kv ⟨hkv, hx⟩

theorem find?_update_self (fs : List (String × Bytes)) (n : String) (c : Bytes)
    (h : n ∈ names fs) :
    lookupFile (fs.map (fun kv => if kv.1 = n then (n, c) else kv)) n = some c := by
  induction fs with
  | nil => simp [names] at h
  | cons kv fs ih =>
      by_cases hk : kv.1 = n
      · unfold lookupFile
        rw [List.map_cons, if_pos hk, List.find?_cons_of_pos _ (by simp)]
        rfl
      · have hmem : n ∈ names fs := by
          simp only [names, List.map_cons, List.mem_cons] at h
          rcases h with h | h
          · exact absurd h.symm hk
          · exact h
        unfold lookupFile
        rw [List.map_cons, if_neg hk,
          List.find?_cons_of_neg _ (by simp [hk])]
        exact ih hmem

theorem lookupFile_setFile_self (fs : List (String × Bytes)) (n : String)
    (c : Bytes) : lookupFile (setFile fs n c) n = some c := by
  unfold setFile
  by_cases h : n ∈ names fs
  · rw [if_pos h]; exact find?_update_self fs n c h
  · rw [if_neg h]
    unfold lookupFile
    rw [List.find?_append]
    have h1 : fs.find? (fun kv => decide (kv.1 = n)) = none := by
      rw [List.find?_eq_none]
      intro kv hkv
      simp only [decide_eq_true_eq]
      intro hk
      exact h (List.mem_map.mpr ⟨kv, hkv, hk⟩)
    rw [h1]
    simp

theorem find?_update_ne (fs : List (String × Bytes)) (n x : String)
    (c : Bytes) (hnx : ¬(n = x)) :
    (fs.map (fun kv => if kv.1 = n then (n, c) else kv)).find?
        (fun kv => decide (kv.1 = x))
      = fs.find? (fun kv => decide (kv.1 = x)) := by
  induction fs with
  | nil => rfl
  | cons kv fs ih =>
      by_cases hk : kv.1 = n
      · rw [List.map_cons, if_pos hk,
          List.find?_cons_of_neg _ (by simp [hnx]),
          List.find?_cons_of_neg _ (by simp [hk, hnx])]
        exact ih
      · rw [List.map_cons, if_neg hk]
        by_cases hx : kv.1 = x
        · rw [List.find?_cons_of_pos _ (by simp [hx]),
            List.find?_cons_of_pos _ (by simp [hx])]
        · rw [List.find?_cons_of_neg _ (by simp [hx]),
            List.find?_cons_of_neg _ (by simp [hx])]
          exact ih

theorem lookupFile_setFile_ne (fs : List (String × Bytes)) (n x : String)
    (c : Bytes) (h : x ≠ n) : lookupFile (setFile fs n c) x = lookupFile fs x := by
  have hnx : ¬(n = x) := fun e => h e.symm
  unfold setFile
  by_cases hmem : n ∈ names fs
  · rw [if_pos hmem]
    unfold lookupFile
    congr 1
    exact find?_update_ne fs n x c hnx
  · rw [if_neg hmem]
    unfold lookupFile
    rw [List.find?_append]
    have h2 : [(n, c)].find? (fun kv => decide (kv.1 = x)) = none := by
      simp [List.find?, hnx]
    rw [h2]
    simp

theorem lookupFile_removeFile_ne (fs : List (String × Bytes)) (n x : String)
    (h : x ≠ n) : lookupFile (removeFile fs n) x = lookupFile fs x := by
  have hnx : ¬(n = x) := fun e => h e.symm
  unfold removeFile lookupFile
  congr 1
  induction fs with
  | nil => rfl
  | cons kv fs ih =>
      by_cases hk : kv.1 = n
      · rw [List.filter_cons_of_neg (by simp [hk]),
          List.find?_cons_of_neg _ (by simp [hk, hnx])]
        exact ih
      · rw [List.filter_cons_of_pos (by simp [hk])]
        by_cases hx : kv.1 = x
        · rw [List.find?_cons_of_pos _ (by simp [hx]),
            List.find?_cons_of_pos _ (by simp [hx])]
        · rw [List.find?_cons_of_neg _ (by simp [hx]),
            List.find?_cons_of_neg _ (by simp [hx])]
          exact ih

theorem lookupFile_removeFile_self (fs : List (String × Bytes)) (n : String) :
    lookupFile (removeFile fs n) n = none := by
  unfold removeFile
  rw [lookupFile_eq_none_iff]
  unfold names
  intro h
  obtain ⟨kv, hkv, hx⟩ := List.mem_map.mp h
  have := List.of_mem_filter hkv
  simp [hx] at this

theorem lookupFile_logError (s : Sys) (m : String) (x : String) :
    lookupFile (logError s m).files x = lookupFile s.files x := rfl

/-! ## State-component lemmas for the primitive operations -/

theorem backup_locked (s : Sys) (sub : String) (force : Bool) :
    (backup s sub force).1.locked = s.locked := by
  unfold backup
  dsimp only
  split
  · rfl
  · cases hl : lookupFile s.files sub with
    | none => rfl
    | some c =>
        dsimp only
        unfold writeBytes
        by_cases hlk : withSuffix sub (suffix sub ++ BACKUP_EXT) ∈ s.locked
        · rw [if_pos hlk]
        · rw [if_neg hlk]
          rfl

theorem replaceFile_locked (s : Sys) (src dst : String) :
    (replaceFile s src dst).1.locked = s.locked := by
  unfold replaceFile
  cases hl : lookupFile s.files src <;> rfl

/-! ## Scanner lemmas -/

theorem subtitles_eq_chunks (files : List (String × Bytes)) :
    subtitles files
      = sortCI (globMatches files "*.srt") ++ sortCI (globMatches files "*.sub") := by
  show ([] ++ sortCI (globMatches files "*.srt")) ++ sortCI (globMatches files "*.sub") = _
  rw [List.nil_append]

theorem movies_eq_chunks (files : List (String × Bytes)) :
    movies files
      = (sortCI (globMatches files "*.mkv") ++ sortCI (globMatches files "*.avi"))
          ++ sortCI (globMatches files "*.mp4") := by
  show (([] ++ sortCI (globMatches files "*.mkv")) ++ sortCI (globMatches files "*.avi"))
      ++ sortCI (globMatches files "*.mp4") = _
  rw [List.nil_append]

theorem subtitle_backups_eq_chunks (files : List (String × Bytes)) :
    subtitle_backups files
      = sortCI (globMatches files "*.srt.bkp") ++ sortCI (globMatches files "*.sub.bkp") := by
  show ([] ++ sortCI (globMatches files "*.srt.bkp")) ++ sortCI (globMatches files "*.sub.bkp") = _
  rw [List.nil_append]

theorem lexLe_total (a b : List Char) : lexLe a b = true ∨ lexLe b a = true := by
  induction a generalizing b with
  | nil => exact Or.inl rfl
  | cons x xs ih =>
      cases b with
      | nil => exact Or.inr rfl
      | cons y ys =>
          by_cases h1 : x < y
          · left; simp [lexLe, h1]
          · by_cases h2 : y < x
            · right; simp [lexLe, h2, h1]
            · rcases ih ys with h | h
              · left; simp [lexLe, h1, h2, h]
              · right; simp [lexLe, h1, h2, h]

theorem lexLe_trans (a b c : List Char) (h1 : lexLe a b = true)
    (h2 : lexLe b c = true) : lexLe a c = true := by
  induction a generalizing b c with
  | nil => rfl
  | cons x xs ih =>
      cases b with
      | nil => simp [lexLe] at h1
      | cons y ys =>
          cases c with
          | nil => simp [lexLe] at h2
          | cons z zs =>
              by_cases hxy : x < y
              · by_cases hyz : y < z
                · simp [lexLe, lt_trans hxy hyz]
                · by_cases hzy : z < y
                  · simp [lexLe, hyz, hzy] at h2
                  · have hyzeq : y = z := le_antisymm (not_lt.mp hzy) (not_lt.mp hyz)
                    subst hyzeq
                    simp [lexLe, hxy]
              · by_cases hyx : y < x
                · simp [lexLe, hxy, hyx] at h1
                · have hxyeq : x = y := le_antisymm (not_lt.mp hyx) (not_lt.mp hxy)
                  subst hxyeq
                  by_cases hyz : x < z
                  · simp [lexLe, hyz]
                  · by_cases hzy : z < x
                    · simp [lexLe, hyz, hzy] at h2
                    · simp [lexLe, hxy, hyx] at h1
                      simp [lexLe, hyz, hzy] at h2
                      simp [lexLe, hyz, hzy]
                      exact ih ys zs h1 h2

instance instCiLeTotal : IsTotal String ciLe :=
  ⟨fun a b => lexLe_total (a.data.map Char.toLower) (b.data.map Char.toLower)⟩

instance instCiLeTrans : IsTrans String ciLe :=
  ⟨fun _ _ _ => lexLe_trans _ _ _⟩

theorem sortCI_sorted (l : List String) : (sortCI l).Pairwise ciLe :=
  List.sorted_insertionSort ciLe l

theorem sortCI_perm (l : List String) : (sortCI l).Perm l :=
  List.perm_insertionSort ciLe l

theorem mem_sortCI (l : List String) (x : String) : x ∈ sortCI l ↔ x ∈ l :=
  (sortCI_perm l).mem_iff

theorem mem_globMatches (files : List (String × Bytes)) (pat x : String)
    (h : x ∈ globMatches files pat) :
    strEndsWith x (pat.drop 1) = true ∧ x ∈ names files := by
  unfold globMatches at h
  obtain ⟨kv, hkv, hx⟩ := List.mem_map.mp h
  have hf := List.of_mem_filter hkv
  have hm := List.mem_of_mem_filter hkv
  subst hx
  exact ⟨hf, List.mem_map.mpr ⟨kv, hm, rfl⟩⟩

theorem mem_subtitles_subtitleName (files : List (String × Bytes)) (x : String)
    (h : x ∈ subtitles files) : subtitleName x := by
  rw [subtitles_eq_chunks, List.mem_append, mem_sortCI, mem_sortCI] at h
  cases h with
  | inl h => exact Or.inl (mem_globMatches files "*.srt" x h).1
  | inr h => exact Or.inr (mem_globMatches files "*.sub" x h).1

theorem mem_movies_movieName (files : List (String × Bytes)) (x : String)
    (h : x ∈ movies files) : movieName x := by
  rw [movies_eq_chunks, List.mem_append, List.mem_append,
    mem_sortCI, mem_sortCI, mem_sortCI] at h
  rcases h with (h | h) | h
  · exact Or.inl (mem_globMatches files "*.mkv" x h).1
  · exact Or.inr (Or.inl (mem_globMatches files "*.avi" x h).1)
  · exact Or.inr (Or.inr (mem_globMatches files "*.mp4" x h).1)

theorem mem_subtitle_backups_getLast? (files : List (String × Bytes)) (x : String)
    (h : x ∈ subtitle_backups files) : x.data.getLast? = some 'p' := by
  rw [subtitle_backups_eq_chunks, List.mem_append, mem_sortCI, mem_sortCI] at h
  cases h with
  | inl h =>
      have := (mem_globMatches files "*.srt.bkp" x h).1
      rw [strEndsWith_getLast? x ("*.srt.bkp".drop 1) this (by decide)]
      rfl
  | inr h =>
      have := (mem_globMatches files "*.sub.bkp" x h).1
      rw [strEndsWith_getLast? x ("*.sub.bkp".drop 1) this (by decide)]
      rfl

theorem globMatches_nodup (files : List (String × Bytes))
    (h : (names files).Nodup) (pat : String) : (globMatches files pat).Nodup := by
  unfold globMatches
  have hsub : ((files.filter (fun kv => strEndsWith kv.1 (pat.drop 1))).map (·.1)).Sublist
      (files.map (·.1)) :=
    (List.filter_sublist files).map (·.1)
  exact hsub.nodup h

theorem sortCI_nodup (l : List String) (h : l.Nodup) : (sortCI l).Nodup :=
  ((sortCI_perm l).nodup_iff).mpr h

theorem subtitles_nodup (files : List (String × Bytes))
    (h : (names files).Nodup) : (subtitles files).Nodup := by
  rw [subtitles_eq_chunks, List.nodup_append]
  refine ⟨sortCI_nodup _ (globMatches_nodup files h _),
    sortCI_nodup _ (globMatches_nodup files h _), ?_⟩
  intro x hx hy
  rw [mem_sortCI] at hx hy
  have h1 := (mem_globMatches files "*.srt" x hx).1
  have h2 := (mem_globMatches files "*.sub" x hy).1
  have e1 := strEndsWith_getLast? x ("*.srt".drop 1) h1 (by decide)
  have e2 := strEndsWith_getLast? x ("*.sub".drop 1) h2 (by decide)
  rw [e1] at e2
  exact absurd e2 (by decide)

/-! ## C4: listing disjointness and sortedness -/

/-- Claim C4 (counterexample): with files `b.srt` and `a.sub` the list
returned by `subtitles` is the concatenation of the per-pattern sorted
lists and is NOT sorted case-insensitively as a whole list (`b.srt`
precedes `a.sub`). -/
theorem subtitles_not_wholly_sorted_cex :
    subtitles [("b.srt", [1]), ("a.sub", [2])] = ["b.srt", "a.sub"] ∧
      ¬ ciLe "b.srt" "a.sub" := by decide

/-- Claim C4 (amended): for every directory, `subtitles` and
`subtitle_backups` share no path, and each returned list is the
concatenation, in pattern-list order, of per-pattern chunks that are each
sorted case-insensitively (the whole list need not be sorted). -/
theorem subtitles_backups_disjoint_chunk_sorted (files : List (String × Bytes)) :
    (∀ x ∈ subtitles files, x ∉ subtitle_backups files) ∧
    subtitles files
      = sortCI (globMatches files "*.srt") ++ sortCI (globMatches files "*.sub") ∧
    subtitle_backups files
      = sortCI (globMatches files "*.srt.bkp")
          ++ sortCI (globMatches files "*.sub.bkp") ∧
    (∀ pat : String, (sortCI (globMatches files pat)).Pairwise ciLe) := by
  refine ⟨?_, subtitles_eq_chunks files, subtitle_backups_eq_chunks files,
    fun pat => sortCI_sorted _⟩
  intro x hx hy
  have h1 := subtitleName_getLast? x (mem_subtitles_subtitleName files x hx)
  have h2 := mem_subtitle_backups_getLast? files x hy
  rcases h1 with h1 | h1 <;> rw [h1] at h2 <;> exact absurd h2 (by decide)

/-- Claim C4 (witness for the amended theorem): concrete instance of the
disjointness clause. -/
theorem subtitles_backups_disjoint_witness :
    "b.srt" ∉ subtitle_backups [("b.srt", [1]), ("b.srt.bkp", [2])] :=
  (subtitles_backups_disjoint_chunk_sorted
    [("b.srt", [1]), ("b.srt.bkp", [2])]).1 "b.srt" (by decide)

/-! ## C2: rename failures abort the batch -/

/-- Directory where the backup write of the first pair is denied by the
OS: `a.srt.bkp` is locked. -/
def lockedBkpDir : Sys :=
  ⟨[("a.srt", [1]), ("b.srt", [2]), ("x.mkv", []), ("y.mkv", [])],
    ["a.srt.bkp"], []⟩

/-- Claim C2 (counterexample): when the backup of the first pair fails,
`rename` neither logs an error for that file nor continues with the
remaining pairs: the exception propagates, the log stays empty, and the
second subtitle is never renamed to `y.srt`. -/
theorem rename_failure_not_contained_cex :
    (rename lockedBkpDir 0 none false).2 = some (.permissionError "a.srt.bkp") ∧
    (rename lockedBkpDir 0 none false).1.log = [] ∧
    lookupFile (rename lockedBkpDir 0 none false).1.files "y.srt" = none ∧
    lookupFile (rename lockedBkpDir 0 none false).1.files "b.srt" = some [2] := by
  decide

/-- Claim C2 (amended): a failure of the backup step or of the rename step
for one (subtitle, movie) pair propagates out of `rename` as an exception,
aborting the batch: the remaining pairs are not processed and no per-file
error is logged. -/
theorem rename_failure_aborts (s s1 : Sys) (force : Bool) (sub movie : String)
    (rest : List (String × String)) (e : PyError)
    (hne : sub ≠ stem movie ++ suffix sub) :
    (backup s sub force = (s1, some e) →
        renameLoop force s ((sub, movie) :: rest) = (s1, some e)) ∧
    (∀ s2 : Sys, backup s sub force = (s1, none) →
        replaceFile s1 sub (stem movie ++ suffix sub) = (s2, some e) →
        renameLoop force s ((sub, movie) :: rest) = (s2, some e)) := by
  constructor
  · intro hb
    simp only [renameLoop]
    rw [if_neg hne, hb]
  · intro s2 hb hr
    simp only [renameLoop]
    rw [if_neg hne, hb]
    dsimp only
    rw [hr]

/-- Claim C2 (witness for the amended theorem): the locked-backup
directory aborts at the first pair. -/
theorem rename_failure_aborts_witness :
    renameLoop false lockedBkpDir [("a.srt", "x.mkv"), ("b.srt", "y.mkv")]
      = (lockedBkpDir, some (.permissionError "a.srt.bkp")) :=
  (rename_failure_aborts lockedBkpDir lockedBkpDir false "a.srt" "x.mkv"
    [("b.srt", "y.mkv")] (.permissionError "a.srt.bkp") (by decide)).1 (by decide)

/-! ## C3: rename is not idempotent -/

/-- Directory whose movie list spans two extension patterns, so the
concatenated movie list `[b.mkv, a.avi]` is not globally sorted. -/
def mixedMovieDir : Sys :=
  ⟨[("x.srt", [1]), ("y.srt", [2]), ("b.mkv", []), ("a.avi", [])], [], []⟩

/-- Claim C3 (counterexample): after a completed first `rename` run, a
second run still performs renames: `b.srt` exists after run one and is
gone after run two, so the name sets differ. -/
theorem rename_not_idempotent_cex :
    ("b.srt" ∈ names (rename mixedMovieDir 0 none false).1.files) ∧
    ("b.srt" ∉ names
      (rename (rename mixedMovieDir 0 none false).1 0 none false).1.files) ∧
    (rename (rename mixedMovieDir 0 none false).1 0 none false).1.files
      ≠ (rename mixedMovieDir 0 none false).1.files := by decide

theorem renameLoop_noop (force : Bool) (l : List (String × String)) (s : Sys)
    (h : ∀ p ∈ l, p.1 = stem p.2 ++ suffix p.1) :
    renameLoop force s l = (s, none) := by
  induction l with
  | nil => rfl
  | cons p rest ih =>
      obtain ⟨sub, movie⟩ := p
      have hm : sub = stem movie ++ suffix sub := h (sub, movie) (List.mem_cons_self _ _)
      simp only [renameLoop]
      rw [if_pos hm]
      exact ih fun q hq => h q (List.mem_cons_of_mem _ hq)

/-- Claim C3 (amended): a `rename` run is a no-op exactly on the matched
configurations: whenever every positional (subtitle, movie) pair of the
slice already has matching base names, `rename` changes nothing and
returns no error.  A completed first run need not produce such a
configuration (see the counterexample, where the movie list spans two
extension patterns), so `rename` is not idempotent in general. -/
theorem rename_noop_of_matched (s : Sys) (start : Nat) (stop : Option Nat)
    (force : Bool)
    (h : ∀ p ∈ pySlice start stop ((subtitles s.files).zip (movies s.files)),
        p.1 = stem p.2 ++ suffix p.1) :
    rename s start stop force = (s, none) :=
  renameLoop_noop force _ s h

/-- Claim C3 (witness for the amended theorem): a directory whose single
pair already matches is left untouched. -/
theorem rename_noop_of_matched_witness :
    rename ⟨[("m.srt", [1]), ("m.mkv", [0])], [], []⟩ 0 none false
      = (⟨[("m.srt", [1]), ("m.mkv", [0])], [], []⟩, none) :=
  rename_noop_of_matched ⟨[("m.srt", [1]), ("m.mkv", [0])], [], []⟩ 0 none false
    (by decide)

/-! ## Helper characterizations of backup, replace and single recode steps -/

theorem ne_append_bkp_self (sub : String) : sub ≠ sub ++ ".bkp" := by
  intro h
  have := congrArg (fun s : String => s.data.length) h
  simp [str_append_data] at this

theorem lookupFile_some_mem_names (fs : List (String × Bytes)) (x : String)
    (c : Bytes) (h : lookupFile fs x = some c) : x ∈ names fs := by
  by_contra hmem
  rw [← lookupFile_eq_none_iff] at hmem
  rw [h] at hmem
  exact Option.noConfusion hmem

theorem backup_success (s : Sys) (sub : String) (c : Bytes) (force : Bool)
    (hc : lookupFile s.files sub = some c)
    (hbkp : (sub ++ ".bkp") ∉ names s.files)
    (hlock : (sub ++ ".bkp") ∉ s.locked) :
    backup s sub force
      = (logInfo { s with files := setFile s.files (sub ++ ".bkp") c }
          (backedUpMsg sub (sub ++ ".bkp")), none) := by
  unfold backup
  dsimp only
  rw [withSuffix_bkp]
  rw [if_neg (fun hand => hbkp hand.1)]
  rw [hc]
  dsimp only
  unfold writeBytes
  rw [if_neg hlock]

theorem backup_skip (s : Sys) (sub : String)
    (hbkp : (sub ++ ".bkp") ∈ names s.files) :
    backup s sub false = (logWarning s (skippedBackupMsg sub), none) := by
  unfold backup
  dsimp only
  rw [withSuffix_bkp]
  rw [if_pos ⟨hbkp, rfl⟩]

theorem replaceFile_success (s : Sys) (src dst : String) (c : Bytes)
    (h : lookupFile s.files src = some c) :
    replaceFile s src dst
      = ({ s with files := setFile (removeFile s.files src) dst c }, none) := by
  unfold replaceFile
  rw [h]

theorem pySlice_zero_none (l : List α) : pySlice 0 none l = l := rfl

theorem recodeLoop_single_fresh (A B : Encoding) (an bn : String) (s : Sys)
    (sub : String) (c t : Bytes)
    (hc : lookupFile s.files sub = some c) (hA : A.decode c = some t)
    (hbkp : (sub ++ ".bkp") ∉ names s.files)
    (hl1 : (sub ++ ".bkp") ∉ s.locked) (hl2 : sub ∉ s.locked) :
    (recodeLoop A B an bn false s [sub]).2 = none ∧
    (recodeLoop A B an bn false s [sub]).1.files
      = setFile (setFile s.files (sub ++ ".bkp") c) sub (B.encode t) ∧
    (recodeLoop A B an bn false s [sub]).1.locked = s.locked := by
  have heq : recodeLoop A B an bn false s [sub]
      = (⟨setFile (setFile s.files (sub ++ ".bkp") c) sub (B.encode t),
          s.locked,
          (s.log ++ [.info (backedUpMsg sub (sub ++ ".bkp"))])
            ++ [.info (reEncodedMsg sub bn)]⟩, none) := by
    simp only [recodeLoop]
    rw [hc]
    dsimp only [Option.bind]
    rw [hA]
    dsimp only
    rw [backup_success s sub c false hc hbkp hl1]
    dsimp only
    unfold writeBytes
    dsimp only [logInfo]
    rw [if_neg hl2]
  rw [heq]
  exact ⟨rfl, rfl, rfl⟩

theorem recodeLoop_single_skip (A B : Encoding) (an bn : String) (s : Sys)
    (sub : String) (c t : Bytes)
    (hc : lookupFile s.files sub = some c) (hA : A.decode c = some t)
    (hbkp : (sub ++ ".bkp") ∈ names s.files) (hl2 : sub ∉ s.locked) :
    (recodeLoop A B an bn false s [sub]).2 = none ∧
    (recodeLoop A B an bn false s [sub]).1.files = setFile s.files sub (B.encode t) ∧
    (recodeLoop A B an bn false s [sub]).1.locked = s.locked := by
  have heq : recodeLoop A B an bn false s [sub]
      = (⟨setFile s.files sub (B.encode t), s.locked,
          (s.log ++ [.warning (skippedBackupMsg sub)])
            ++ [.info (reEncodedMsg sub bn)]⟩, none) := by
    simp only [recodeLoop]
    rw [hc]
    dsimp only [Option.bind]
    rw [hA]
    dsimp only
    rw [backup_skip s sub hbkp]
    dsimp only
    unfold writeBytes
    dsimp only [logWarning]
    rw [if_neg hl2]
    rfl
  rw [heq]
  exact ⟨rfl, rfl, rfl⟩

/-! ## C5: backup then restore round trip -/

theorem restore_single (s : Sys) (p : String) (c : Bytes)
    (hp : ¬ p = "") (hc : lookupFile s.files p = some c) :
    (restore s (some p) 0 none).2 = none ∧
    (restore s (some p) 0 none).1.files
      = setFile (removeFile s.files p) (withSuffix p "") c := by
  unfold restore
  dsimp only
  rw [if_neg hp]
  simp only [restoreLoop]
  rw [replaceFile_success s p (withSuffix p "") c hc]
  exact ⟨rfl, rfl⟩

/-- Claim C5: backing a subtitle up and then restoring from the resulting
backup path leaves a file at the original subtitle path whose bytes are
the subtitle's content at backup time. -/
theorem backup_restore_roundtrip (s : Sys) (sub : String) (c : Bytes)
    (hc : lookupFile s.files sub = some c)
    (hbkp : (sub ++ ".bkp") ∉ names s.files)
    (hlock : (sub ++ ".bkp") ∉ s.locked)
    (hne : sub ≠ "") :
    (backup s sub false).2 = none ∧
    (restore (backup s sub false).1 (some (sub ++ ".bkp")) 0 none).2 = none ∧
    lookupFile
      (restore (backup s sub false).1 (some (sub ++ ".bkp")) 0 none).1.files sub
      = some c := by
  rw [backup_success s sub c false hc hbkp hlock]
  dsimp only
  have hlook : lookupFile
      (logInfo { s with files := setFile s.files (sub ++ ".bkp") c }
        (backedUpMsg sub (sub ++ ".bkp"))).files (sub ++ ".bkp") = some c :=
    lookupFile_setFile_self s.files (sub ++ ".bkp") c
  obtain ⟨h2, h3⟩ := restore_single
    (logInfo { s with files := setFile s.files (sub ++ ".bkp") c }
      (backedUpMsg sub (sub ++ ".bkp")))
    (sub ++ ".bkp") c (append_bkp_ne_empty sub) hlook
  refine ⟨rfl, h2, ?_⟩
  rw [h3, withSuffix_append_bkp sub hne]
  exact lookupFile_setFile_self _ sub c

/-- Claim C5 (witness): a one-file directory round-trips. -/
theorem backup_restore_roundtrip_witness :
    (backup ⟨[("a.srt", [7])], [], []⟩ "a.srt" false).2 = none ∧
    (restore (backup ⟨[("a.srt", [7])], [], []⟩ "a.srt" false).1
      (some ("a.srt" ++ ".bkp")) 0 none).2 = none ∧
    lookupFile (restore (backup ⟨[("a.srt", [7])], [], []⟩ "a.srt" false).1
      (some ("a.srt" ++ ".bkp")) 0 none).1.files "a.srt" = some [7] :=
  backup_restore_roundtrip ⟨[("a.srt", [7])], [], []⟩ "a.srt" [7]
    (by decide) (by decide) (by decide) (by decide)

/-! ## C6: recode round trip -/

/-- Claim C6: when a subtitle's content converts losslessly between the
encodings `A` and `B`, recoding `A → B` and then `B → A` reproduces the
original bytes. -/
theorem recode_roundtrip (s : Sys) (A B : Encoding) (an bn : String)
    (sub : String) (c t : Bytes)
    (hc : lookupFile s.files sub = some c)
    (hA : A.decode c = some t) (hAe : A.encode t = c)
    (hB : B.decode (B.encode t) = some t)
    (hbkp : (sub ++ ".bkp") ∉ names s.files)
    (hlock : s.locked = [])
    (hsub : sub ≠ "") :
    (recode s (some sub) A B an bn 0 none false).2 = none ∧
    (recode (recode s (some sub) A B an bn 0 none false).1
      (some sub) B A bn an 0 none false).2 = none ∧
    lookupFile (recode (recode s (some sub) A B an bn 0 none false).1
      (some sub) B A bn an 0 none false).1.files sub = some c := by
  have hl1 : (sub ++ ".bkp") ∉ s.locked := by rw [hlock]; exact List.not_mem_nil _
  have hl2 : sub ∉ s.locked := by rw [hlock]; exact List.not_mem_nil _
  have hrec1 : recode s (some sub) A B an bn 0 none false
      = recodeLoop A B an bn false s [sub] := by
    unfold recode
    dsimp only
    rw [if_neg hsub]
    rfl
  obtain ⟨e1, f1, l1⟩ :=
    recodeLoop_single_fresh A B an bn s sub c t hc hA hbkp hl1 hl2
  have hrec2 : recode (recodeLoop A B an bn false s [sub]).1
      (some sub) B A bn an 0 none false
      = recodeLoop B A bn an false (recodeLoop A B an bn false s [sub]).1 [sub] := by
    unfold recode
    dsimp only
    rw [if_neg hsub]
    rfl
  have hc2 : lookupFile (recodeLoop A B an bn false s [sub]).1.files sub
      = some (B.encode t) := by
    rw [f1]; exact lookupFile_setFile_self _ sub (B.encode t)
  have hbkp2 : (sub ++ ".bkp")
      ∈ names (recodeLoop A B an bn false s [sub]).1.files := by
    apply lookupFile_some_mem_names _ _ c
    rw [f1, lookupFile_setFile_ne _ sub (sub ++ ".bkp") (B.encode t)
      (fun e => ne_append_bkp_self sub e.symm)]
    exact lookupFile_setFile_self s.files (sub ++ ".bkp") c
  have hl2b : sub ∉ (recodeLoop A B an bn false s [sub]).1.locked := by
    rw [l1]; exact hl2
  obtain ⟨e2, f2, l2⟩ := recodeLoop_single_skip B A bn an
    (recodeLoop A B an bn false s [sub]).1 sub (B.encode t) t hc2 hB hbkp2 hl2b
  refine ⟨by rw [hrec1]; exact e1, by rw [hrec1, hrec2]; exact e2, ?_⟩
  rw [hrec1, hrec2, f2, hAe]
  exact lookupFile_setFile_self _ sub c

def idEncoding : Encoding := ⟨some, id⟩

/-- Claim C6 (witness): the identity encoding round-trips a one-file
directory. -/
theorem recode_roundtrip_witness :
    (recode ⟨[("a.srt", [7])], [], []⟩ (some "a.srt") idEncoding idEncoding
      "x" "y" 0 none false).2 = none ∧
    (recode (recode ⟨[("a.srt", [7])], [], []⟩ (some "a.srt") idEncoding
      idEncoding "x" "y" 0 none false).1
      (some "a.srt") idEncoding idEncoding "y" "x" 0 none false).2 = none ∧
    lookupFile (recode (recode ⟨[("a.srt", [7])], [], []⟩ (some "a.srt")
      idEncoding idEncoding "x" "y" 0 none false).1
      (some "a.srt") idEncoding idEncoding "y" "x" 0 none false).1.files "a.srt"
      = some [7] :=
  recode_roundtrip ⟨[("a.srt", [7])], [], []⟩ idEncoding idEncoding "x" "y"
    "a.srt" [7] [7] (by decide) rfl rfl rfl (by decide) rfl (by decide)

/-! ## C9: shift slicing and dynamic typing of the subtitle argument -/

/-- Claim C9: an explicit non-empty subtitle argument to `shift` is NOT
sliced by start/stop (unlike `recode` and `restore`, which slice even
their one-element explicit list to emptiness when `start ≥ 1`), and it is
forwarded to `backup` without `Path` conversion, so a plain string
argument fails at the backup step with `AttributeError` before any
mutation. -/
theorem shift_explicit_unsliced_and_str_fails (s : Sys) (v : String)
    (start : Nat) (stop : Option Nat) (force : Bool) (fn : Bytes → Bytes)
    (hv : v ≠ "") :
    (shift s (some (.path v)) start stop force fn
      = shift s (some (.path v)) 0 none force fn) ∧
    (shift s (some (.str v)) start stop force fn = (s, some .attributeError)) ∧
    (∀ (A B : Encoding) (an bn : String) (f2 : Bool),
      recode s (some v) A B an bn 1 none f2 = (s, none)) ∧
    restore s (some v) 1 none = (s, none) := by
  have hbe : (v == "") = false := beq_eq_false_iff_ne.mpr hv
  refine ⟨rfl, ?_, ?_, ?_⟩
  · unfold shift
    dsimp only [PathLike.truthy]
    rw [hbe]
    rfl
  · intro A B an bn f2
    unfold recode
    dsimp only
    rw [if_neg hv]
    rfl
  · unfold restore
    dsimp only
    rw [if_neg hv]
    rfl

/-- Claim C9 (witness): concrete instance with a one-file directory. -/
theorem shift_explicit_unsliced_witness :
    (shift ⟨[("a.srt", [1])], [], []⟩ (some (.path "a.srt")) 5 (some 9) true id
      = shift ⟨[("a.srt", [1])], [], []⟩ (some (.path "a.srt")) 0 none true id) ∧
    (shift ⟨[("a.srt", [1])], [], []⟩ (some (.str "a.srt")) 5 (some 9) true id
      = (⟨[("a.srt", [1])], [], []⟩, some .attributeError)) ∧
    (∀ (A B : Encoding) (an bn : String) (f2 : Bool),
      recode ⟨[("a.srt", [1])], [], []⟩ (some "a.srt") A B an bn 1 none f2
        = (⟨[("a.srt", [1])], [], []⟩, none)) ∧
    restore ⟨[("a.srt", [1])], [], []⟩ (some "a.srt") 1 none
      = (⟨[("a.srt", [1])], [], []⟩, none) :=
  shift_explicit_unsliced_and_str_fails ⟨[("a.srt", [1])], [], []⟩ "a.srt"
    5 (some 9) true id (by decide)

/-! ## C8: per-pattern sorted concatenation -/

/-- Claim C8: each of `movies`, `subtitles` and `subtitle_backups` returns
the glob matches of each extension pattern sorted case-insensitively, the
per-pattern sorted lists concatenated in pattern-list order; each chunk is
a sorted permutation of that pattern's matches. -/
theorem scanner_per_pattern_sorted_concat (files : List (String × Bytes)) :
    (movies files
      = (sortCI (globMatches files "*.mkv") ++ sortCI (globMatches files "*.avi"))
          ++ sortCI (globMatches files "*.mp4")) ∧
    (subtitles files
      = sortCI (globMatches files "*.srt") ++ sortCI (globMatches files "*.sub")) ∧
    (subtitle_backups files
      = sortCI (globMatches files "*.srt.bkp")
          ++ sortCI (globMatches files "*.sub.bkp")) ∧
    (∀ pat : String, (sortCI (globMatches files pat)).Pairwise ciLe ∧
      (sortCI (globMatches files pat)).Perm (globMatches files pat)) :=
  ⟨movies_eq_chunks files, subtitles_eq_chunks files,
    subtitle_backups_eq_chunks files,
    fun _ => ⟨sortCI_sorted _, sortCI_perm _⟩⟩

/-! ## C7: rename refines the per-pair specification -/

/-- Modelled from the spec (§4.2 Rename Operation): one step of the
specified rename — target name = movie's base name + subtitle's original
extension; no-op when names already match; otherwise back up (honouring
the force flag) and move the subtitle onto the target. -/
def renameSpecStep (force : Bool) (s : Sys) (p : String × String) : Res :=
  let target := stem p.2 ++ suffix p.1
  if p.1 = target then (s, none)
  else
    match backup s p.1 force with
    | (s1, none) =>
      match replaceFile s1 p.1 target with
      | (s2, none) => (logInfo s2 (renamedMsg p.1 target), none)
      | r => r
    | r => r

/-- Sequencing of per-item steps where a raised exception stops the run. -/
def runStep (step : Sys → α → Res) : Res → α → Res :=
  fun r a =>
    match r with
    | (s1, none) => step s1 a
    | r1 => r1

def runSeq (step : Sys → α → Res) (s : Sys) (l : List α) : Res :=
  l.foldl (runStep step) (s, none)

/-- Modelled from the spec (§4.2): the rename operation as described —
the spec step applied over the [start,stop) slice of the positionally
zipped sorted lists. -/
def renameSpec (s : Sys) (start : Nat) (stop : Option Nat) (force : Bool) : Res :=
  runSeq (renameSpecStep force) s
    (pySlice start stop ((subtitles s.files).zip (movies s.files)))

theorem foldl_runStep_error (step : Sys → α → Res) (s : Sys) (e : PyError)
    (l : List α) : l.foldl (runStep step) (s, some e) = (s, some e) := by
  induction l with
  | nil => rfl
  | cons a l ih => rw [List.foldl_cons]; exact ih

theorem renameLoop_eq_runSeq (force : Bool) :
    ∀ (l : List (String × String)) (s : Sys),
      renameLoop force s l = runSeq (renameSpecStep force) s l
  | [], _ => rfl
  | (sub, movie) :: rest, s => by
      simp only [renameLoop, runSeq, List.foldl_cons]
      dsimp only [runStep, renameSpecStep]
      by_cases h : sub = stem movie ++ suffix sub
      · rw [if_pos h, if_pos h]
        exact renameLoop_eq_runSeq force rest s
      · rw [if_neg h, if_neg h]
        rcases hbb : backup s sub force with ⟨s1, err⟩
        cases err with
        | none =>
            dsimp only
            rcases hrr : replaceFile s1 sub (stem movie ++ suffix sub) with ⟨s2, err2⟩
            cases err2 with
            | none => exact renameLoop_eq_runSeq force rest _
            | some e => exact (foldl_runStep_error _ s2 e rest).symm
        | some e =>
            dsimp only
            exact (foldl_runStep_error _ s1 e rest).symm

/-- Claim C7: `rename` computes, for each pair of the slice, the target
path as movie base name + subtitle extension, skips matching pairs, and
otherwise backs up (honouring force) and moves — i.e. it coincides with
the specified per-pair operation; and the spec's concrete scenario holds:
`movie.mkv` + `subA.srt` yields `movie.srt` with subA's bytes and backup
`subA.srt.bkp` with the pre-rename bytes. -/
theorem rename_refines_spec :
    (∀ (s : Sys) (start : Nat) (stop : Option Nat) (force : Bool),
      rename s start stop force = renameSpec s start stop force) ∧
    ((rename ⟨[("movie.mkv", [9]), ("subA.srt", [1, 2])], [], []⟩ 0 none false).2
        = none ∧
      lookupFile (rename ⟨[("movie.mkv", [9]), ("subA.srt", [1, 2])], [], []⟩
        0 none false).1.files "movie.srt" = some [1, 2] ∧
      lookupFile (rename ⟨[("movie.mkv", [9]), ("subA.srt", [1, 2])], [], []⟩
        0 none false).1.files "subA.srt.bkp" = some [1, 2] ∧
      lookupFile (rename ⟨[("movie.mkv", [9]), ("subA.srt", [1, 2])], [], []⟩
        0 none false).1.files "subA.srt" = none) :=
  ⟨fun s start stop force => renameLoop_eq_runSeq force _ s, by decide⟩

/-! ## C10: what rename can and cannot touch -/

theorem backup_frame (s : Sys) (sub : String) (force : Bool) (x : String)
    (hx : x ≠ sub ++ ".bkp") :
    lookupFile (backup s sub force).1.files x = lookupFile s.files x := by
  unfold backup
  dsimp only
  rw [withSuffix_bkp]
  split
  · rfl
  · cases hl : lookupFile s.files sub with
    | none => rfl
    | some c =>
        dsimp only
        unfold writeBytes
        by_cases hlk : (sub ++ ".bkp") ∈ s.locked
        · rw [if_pos hlk]
        · rw [if_neg hlk]
          dsimp only
          exact lookupFile_setFile_ne s.files (sub ++ ".bkp") x c hx

theorem replaceFile_frame (s : Sys) (src dst x : String) (h1 : x ≠ src)
    (h2 : x ≠ dst) :
    lookupFile (replaceFile s src dst).1.files x = lookupFile s.files x := by
  unfold replaceFile
  cases hl : lookupFile s.files src with
  | none => rfl
  | some c =>
      dsimp only
      rw [lookupFile_setFile_ne _ dst x c h2]
      exact lookupFile_removeFile_ne s.files src x h1

theorem renameLoop_frame (force : Bool) :
    ∀ (l : List (String × String)) (s : Sys) (x : String),
      (∀ p ∈ l, x ≠ p.1 ∧ x ≠ stem p.2 ++ suffix p.1 ∧ x ≠ p.1 ++ ".bkp") →
      lookupFile (renameLoop force s l).1.files x = lookupFile s.files x
  | [], _, _, _ => rfl
  | (sub, movie) :: rest, s, x, hx => by
      obtain ⟨h1, h2, h3⟩ := hx (sub, movie) (List.mem_cons_self _ _)
      have hrest := fun p hp => hx p (List.mem_cons_of_mem _ hp)
      simp only [renameLoop]
      by_cases h : sub = stem movie ++ suffix sub
      · rw [if_pos h]
        exact renameLoop_frame force rest s x hrest
      · rw [if_neg h]
        rcases hbb : backup s sub force with ⟨s1, err1⟩
        have hb1 : lookupFile s1.files x = lookupFile s.files x := by
          have := backup_frame s sub force x h3
          rwa [hbb] at this
        cases err1 with
        | some e => exact hb1
        | none =>
            dsimp only
            rcases hrr : replaceFile s1 sub (stem movie ++ suffix sub)
              with ⟨s2, err2⟩
            have hb2 : lookupFile s2.files x = lookupFile s1.files x := by
              have := replaceFile_frame s1 sub (stem movie ++ suffix sub) x h1 h2
              rwa [hrr] at this
            cases err2 with
            | some e => exact hb2.trans hb1
            | none =>
                dsimp only
                rw [renameLoop_frame force rest _ x hrest]
                exact hb2.trans hb1

theorem pySlice_sublist (start : Nat) (stop : Option Nat) (l : List α) :
    (pySlice start stop l).Sublist l := by
  cases stop with
  | none => exact List.drop_sublist start l
  | some e => exact (List.drop_sublist start (l.take e)).trans (List.take_sublist e l)

theorem pySlice_mem (start : Nat) (stop : Option Nat) (l : List α) (a : α)
    (h : a ∈ pySlice start stop l) : a ∈ l :=
  (pySlice_sublist start stop l).mem h

/-- Directory refuting claim C10: one movie `c.mkv`, two subtitles; the
subtitle `c.srt` at index 1 is at/beyond the movie count. -/
def collideDir : Sys := ⟨[("a.srt", [1]), ("c.srt", [2]), ("c.mkv", [])], [], []⟩

/-- Claim C10 (counterexample): `c.srt` has positional index 1 ≥ number of
movies (1), yet `rename` changes its content (the first pair renames
`a.srt` onto `c.srt`), so subtitles beyond the pairing are not left
unchanged. -/
theorem rename_overwrites_beyond_pairing_cex :
    subtitles collideDir.files = ["a.srt", "c.srt"] ∧
    movies collideDir.files = ["c.mkv"] ∧
    lookupFile collideDir.files "c.srt" = some [2] ∧
    lookupFile (rename collideDir 0 none false).1.files "c.srt" = some [1] := by
  decide

/-- Claim C10 (amended): `rename` only removes paired subtitles and only
writes their backup names and computed target names: any file whose name
is none of these is unchanged; in particular a movie file is unchanged
whenever no computed target name collides with it (movie names never
coincide with paired subtitle names or backup names).  A subtitle beyond
the pairing, however, can be overwritten when a computed target name
collides with it (see the counterexample). -/
theorem rename_frame (s : Sys) (start : Nat) (stop : Option Nat) (force : Bool) :
    (∀ x : String,
      (∀ p ∈ pySlice start stop ((subtitles s.files).zip (movies s.files)),
        x ≠ p.1 ∧ x ≠ stem p.2 ++ suffix p.1 ∧ x ≠ p.1 ++ ".bkp") →
      lookupFile (rename s start stop force).1.files x = lookupFile s.files x) ∧
    (∀ m ∈ movies s.files,
      (∀ p ∈ pySlice start stop ((subtitles s.files).zip (movies s.files)),
        m ≠ stem p.2 ++ suffix p.1) →
      lookupFile (rename s start stop force).1.files m = lookupFile s.files m) := by
  constructor
  · intro x hx
    exact renameLoop_frame force _ s x hx
  · intro m hm hmt
    apply renameLoop_frame force _ s m
    intro p hp
    have hpz := pySlice_mem _ _ _ p hp
    have hsub : p.1 ∈ subtitles s.files := by
      obtain ⟨ps, pm⟩ := p
      exact (List.of_mem_zip hpz).1
    have hmov : movieName m := mem_movies_movieName s.files m hm
    refine ⟨movieName_ne_subtitleName m p.1 hmov
        (mem_subtitles_subtitleName s.files p.1 hsub),
      hmt p hp, movieName_ne_bkp m p.1 hmov⟩

/-- Claim C10 (witness for the amended theorem): an untouched `.txt` file
and the movie file survive a rename unchanged. -/
theorem rename_frame_witness :
    lookupFile (rename ⟨[("a.srt", [1]), ("m.mkv", [2]), ("z.txt", [3])], [], []⟩
        0 none false).1.files "z.txt"
      = lookupFile [("a.srt", [1]), ("m.mkv", [2]), ("z.txt", [3])] "z.txt" ∧
    lookupFile (rename ⟨[("a.srt", [1]), ("m.mkv", [2]), ("z.txt", [3])], [], []⟩
        0 none false).1.files "m.mkv"
      = lookupFile [("a.srt", [1]), ("m.mkv", [2]), ("z.txt", [3])] "m.mkv" :=
  ⟨(rename_frame ⟨[("a.srt", [1]), ("m.mkv", [2]), ("z.txt", [3])], [], []⟩
      0 none false).1 "z.txt" (by decide),
    (rename_frame ⟨[("a.srt", [1]), ("m.mkv", [2]), ("z.txt", [3])], [], []⟩
      0 none false).2 "m.mkv" (by decide) (by decide)⟩

/-! ## C1: decode failures are contained per file -/

theorem backup_chars (s : Sys) (sub : String) (c : Bytes) (force : Bool)
    (hc : lookupFile s.files sub = some c)
    (hlk : (sub ++ ".bkp") ∉ s.locked) :
    (backup s sub force).2 = none ∧
    (backup s sub force).1.locked = s.locked ∧
    (∃ tl, (backup s sub force).1.log = s.log ++ tl) ∧
    (∀ y, y ≠ sub ++ ".bkp" →
      lookupFile (backup s sub force).1.files y = lookupFile s.files y) := by
  unfold backup
  dsimp only
  rw [withSuffix_bkp]
  split
  · exact ⟨rfl, rfl, ⟨[.warning (skippedBackupMsg sub)], rfl⟩, fun y _ => rfl⟩
  · rw [hc]
    dsimp only
    unfold writeBytes
    rw [if_neg hlk]
    dsimp only
    exact ⟨rfl, rfl, ⟨[.info (backedUpMsg sub (sub ++ ".bkp"))], rfl⟩,
      fun y hy => lookupFile_setFile_ne s.files (sub ++ ".bkp") y c hy⟩

/-- Behaviour of the recode loop over a duplicate-free list of subtitle
names, with no write denials: no exception escapes, the log only grows,
files outside the list and its backup names are untouched, every
non-decoding file (and its backup name) is untouched with an error
logged, and every decoding file is re-encoded. -/
theorem recodeLoop_master (A B : Encoding) (an bn : String) (force : Bool) :
    ∀ (l : List String) (s : Sys),
      l.Nodup → (∀ x ∈ l, subtitleName x) → s.locked = [] →
      (recodeLoop A B an bn force s l).2 = none ∧
      (recodeLoop A B an bn force s l).1.locked = s.locked ∧
      (∃ tl, (recodeLoop A B an bn force s l).1.log = s.log ++ tl) ∧
      (∀ y : String, y ∉ l → (∀ z ∈ l, y ≠ z ++ ".bkp") →
        lookupFile (recodeLoop A B an bn force s l).1.files y
          = lookupFile s.files y) ∧
      (∀ x ∈ l,
        ((lookupFile s.files x).bind A.decode = none →
          lookupFile (recodeLoop A B an bn force s l).1.files x
            = lookupFile s.files x ∧
          lookupFile (recodeLoop A B an bn force s l).1.files (x ++ ".bkp")
            = lookupFile s.files (x ++ ".bkp") ∧
          LogEntry.error (notEncodedMsg x an)
            ∈ (recodeLoop A B an bn force s l).1.log) ∧
        (∀ t, (lookupFile s.files x).bind A.decode = some t →
          lookupFile (recodeLoop A B an bn force s l).1.files x
            = some (B.encode t)))
  | [], s => by
      intro _ _ _
      exact ⟨rfl, rfl, ⟨[], (List.append_nil _).symm⟩, fun y _ _ => rfl,
        fun x hx => absurd hx (List.not_mem_nil x)⟩
  | x :: l, s => by
      intro hnd hsub hlk
      have hndx : x ∉ l := (List.nodup_cons.mp hnd).1
      have hndl : l.Nodup := (List.nodup_cons.mp hnd).2
      have hsx : subtitleName x := hsub x (List.mem_cons_self _ _)
      have hsl : ∀ z ∈ l, subtitleName z :=
        fun z hz => hsub z (List.mem_cons_of_mem _ hz)
      have hxnebkps : ∀ z ∈ l, x ≠ z ++ ".bkp" :=
        fun z _ => subtitleName_ne_bkp x z hsx
      cases hd : (lookupFile s.files x).bind A.decode with
      | none =>
          simp only [recodeLoop]
          rw [hd]
          dsimp only
          obtain ⟨ih1, ih2, ⟨tl, ih3⟩, ih4, ih5⟩ :=
            recodeLoop_master A B an bn force l
              (logError s (notEncodedMsg x an)) hndl hsl hlk
          refine ⟨ih1, ih2, ?_, ?_, ?_⟩
          · refine ⟨LogEntry.error (notEncodedMsg x an) :: tl, ?_⟩
            rw [ih3]
            show (s.log ++ [LogEntry.error (notEncodedMsg x an)]) ++ tl = _
            rw [List.append_assoc]
            rfl
          · intro y hy hz
            exact ih4 y (fun hmem => hy (List.mem_cons_of_mem _ hmem))
              (fun z hzl => hz z (List.mem_cons_of_mem _ hzl))
          · intro x' hx'
            rcases List.mem_cons.mp hx' with rfl | hx'l
            · refine ⟨fun _ => ?_, fun t' hsome => ?_⟩
              · refine ⟨?_, ?_, ?_⟩
                · exact ih4 x' hndx hxnebkps
                · refine ih4 (x' ++ ".bkp") ?_ ?_
                  · intro hmem
                    exact subtitleName_ne_bkp _ x' (hsl _ hmem) rfl
                  · intro z hzl e
                    exact hndx (append_bkp_injective x' z e ▸ hzl)
                · rw [ih3]
                  exact List.mem_append.mpr (Or.inl
                    (List.mem_append.mpr (Or.inr (List.mem_singleton.mpr rfl))))
              · rw [hd] at hsome
                exact Option.noConfusion hsome
            · exact ih5 x' hx'l
      | some t =>
          obtain ⟨c, hcx, _⟩ := Option.bind_eq_some.mp hd
          have hlkbkp : (x ++ ".bkp") ∉ s.locked := by
            rw [hlk]; exact List.not_mem_nil _
          rcases hbb : backup s x force with ⟨s1, err1⟩
          obtain ⟨b1, b2, ⟨tb, b3⟩, b4⟩ := backup_chars s x c force hcx hlkbkp
          rw [hbb] at b1 b2 b3 b4
          cases err1 with
          | some e => exact absurd b1 (by simp)
          | none =>
          have hxlk1 : x ∉ s1.locked := by
            rw [b2, hlk]; exact List.not_mem_nil _
          have hw : writeBytes s1 x (B.encode t)
              = ({ s1 with files := setFile s1.files x (B.encode t) }, none) := by
            unfold writeBytes
            rw [if_neg hxlk1]
          simp only [recodeLoop]
          rw [hd]
          dsimp only
          rw [hbb]
          dsimp only
          rw [hw]
          dsimp only
          obtain ⟨ih1, ih2, ⟨tl, ih3⟩, ih4, ih5⟩ :=
            recodeLoop_master A B an bn force l
              (logInfo { s1 with files := setFile s1.files x (B.encode t) }
                (reEncodedMsg x bn)) hndl hsl (b2.trans hlk)
          have hS3locked :
              (logInfo { s1 with files := setFile s1.files x (B.encode t) }
                (reEncodedMsg x bn)).locked = s.locked := b2
          have hS3frame : ∀ y : String, y ≠ x → y ≠ x ++ ".bkp" →
              lookupFile (logInfo { s1 with files := setFile s1.files x (B.encode t) }
                (reEncodedMsg x bn)).files y = lookupFile s.files y := by
            intro y hy1 hy2
            show lookupFile (setFile s1.files x (B.encode t)) y = _
            rw [lookupFile_setFile_ne s1.files x y (B.encode t) hy1]
            exact b4 y hy2
          refine ⟨ih1, ih2.trans hS3locked, ?_, ?_, ?_⟩
          · refine ⟨(tb ++ [LogEntry.info (reEncodedMsg x bn)]) ++ tl, ?_⟩
            rw [ih3]
            show (s1.log ++ [LogEntry.info (reEncodedMsg x bn)]) ++ tl = _
            rw [b3, List.append_assoc, List.append_assoc, List.append_assoc]
          · intro y hy hz
            have hy1 : y ≠ x := fun e => hy (e ▸ List.mem_cons_self _ _)
            have hy2 : y ≠ x ++ ".bkp" := hz x (List.mem_cons_self _ _)
            rw [ih4 y (fun hmem => hy (List.mem_cons_of_mem _ hmem))
              (fun z hzl => hz z (List.mem_cons_of_mem _ hzl))]
            exact hS3frame y hy1 hy2
          · intro x' hx'
            rcases List.mem_cons.mp hx' with rfl | hx'l
            · refine ⟨fun hfail => ?_, fun t' hsome => ?_⟩
              · rw [hd] at hfail
                exact Option.noConfusion hfail
              · rw [hd] at hsome
                have ht : t = t' := Option.some.inj hsome
                subst ht
                rw [ih4 x' hndx hxnebkps]
                show lookupFile (setFile s1.files x' (B.encode t)) x' = _
                exact lookupFile_setFile_self s1.files x' (B.encode t)
            · have hne1 : x' ≠ x := fun e => hndx (e ▸ hx'l)
              have hx'eq : lookupFile
                  (logInfo { s1 with files := setFile s1.files x (B.encode t) }
                    (reEncodedMsg x bn)).files x' = lookupFile s.files x' :=
                hS3frame x' hne1 (subtitleName_ne_bkp x' x (hsl x' hx'l))
              have hx'bkp : lookupFile
                  (logInfo { s1 with files := setFile s1.files x (B.encode t) }
                    (reEncodedMsg x bn)).files (x' ++ ".bkp")
                  = lookupFile s.files (x' ++ ".bkp") :=
                hS3frame (x' ++ ".bkp")
                  (Ne.symm (subtitleName_ne_bkp x x' hsx))
                  (fun e => hne1 (append_bkp_injective x' x e))
              refine ⟨fun hfail => ?_, fun t' hsome => ?_⟩
              · obtain ⟨a1, a2, a3⟩ := (ih5 x' hx'l).1 (by rw [hx'eq]; exact hfail)
                exact ⟨a1.trans hx'eq, a2.trans hx'bkp, a3⟩
              · exact (ih5 x' hx'l).2 t' (by rw [hx'eq]; exact hsome)

/-- Claim C1: for every subtitle in the slice whose bytes do not decode
under the source encoding, `recode` logs an error for that file, performs
no mutation (content unchanged, no backup created), and continues
processing the remaining subtitles in the slice (every decodable one is
re-encoded). -/
theorem recode_decode_error_skips (s : Sys) (A B : Encoding) (an bn : String)
    (start : Nat) (stop : Option Nat) (force : Bool) (sub : String) (c : Bytes)
    (hnd : (names s.files).Nodup) (hlk : s.locked = [])
    (hmem : sub ∈ pySlice start stop (subtitles s.files))
    (hc : lookupFile s.files sub = some c) (hfail : A.decode c = none)
    (hback : (sub ++ ".bkp") ∉ names s.files) :
    (recode s none A B an bn start stop force).2 = none ∧
    lookupFile (recode s none A B an bn start stop force).1.files sub = some c ∧
    (sub ++ ".bkp") ∉ names (recode s none A B an bn start stop force).1.files ∧
    LogEntry.error (notEncodedMsg sub an)
      ∈ (recode s none A B an bn start stop force).1.log ∧
    (∀ x ∈ pySlice start stop (subtitles s.files), ∀ cx tx,
      lookupFile s.files x = some cx → A.decode cx = some tx →
      lookupFile (recode s none A B an bn start stop force).1.files x
        = some (B.encode tx)) := by
  have hunf : recode s none A B an bn start stop force
      = recodeLoop A B an bn force s (pySlice start stop (subtitles s.files)) :=
    rfl
  rw [hunf]
  obtain ⟨m1, m2, m3, m4, m5⟩ := recodeLoop_master A B an bn force
    (pySlice start stop (subtitles s.files)) s
    (List.Nodup.sublist (pySlice_sublist start stop _)
      (subtitles_nodup s.files hnd))
    (fun x hx => mem_subtitles_subtitleName s.files x (pySlice_mem _ _ _ x hx))
    hlk
  have hdx : (lookupFile s.files sub).bind A.decode = none := by
    rw [hc]; exact hfail
  obtain ⟨a1, a2, a3⟩ := (m5 sub hmem).1 hdx
  refine ⟨m1, a1.trans hc, ?_, a3, ?_⟩
  · rw [← lookupFile_eq_none_iff]
    rw [a2]
    exact (lookupFile_eq_none_iff s.files (sub ++ ".bkp")).mpr hback
  · intro x hx cx tx hcx hdxx
    exact (m5 x hx).2 tx (by rw [hcx]; exact hdxx)

/-- An encoding that rejects the byte string `[255]` and passes everything
else through, used to witness claim C1 concretely. -/
def rejects255 : Encoding :=
  ⟨fun b => if b = [255] then none else some b, id⟩

/-- Claim C1 (witness): `bad.srt` (bytes `[255]`) fails to decode and is
skipped with an error logged; `good.srt` is still re-encoded. -/
theorem recode_decode_error_skips_witness :
    (recode ⟨[("bad.srt", [255]), ("good.srt", [7])], [], []⟩ none rejects255
      rejects255 "w1250" "utf8" 0 none false).2 = none ∧
    lookupFile (recode ⟨[("bad.srt", [255]), ("good.srt", [7])], [], []⟩ none
      rejects255 rejects255 "w1250" "utf8" 0 none false).1.files "bad.srt"
      = some [255] ∧
    ("bad.srt" ++ ".bkp") ∉ names (recode ⟨[("bad.srt", [255]),
      ("good.srt", [7])], [], []⟩ none rejects255 rejects255 "w1250" "utf8"
      0 none false).1.files ∧
    LogEntry.error (notEncodedMsg "bad.srt" "w1250")
      ∈ (recode ⟨[("bad.srt", [255]), ("good.srt", [7])], [], []⟩ none
        rejects255 rejects255 "w1250" "utf8" 0 none false).1.log ∧
    (∀ x ∈ pySlice 0 none
        (subtitles [("bad.srt", [255]), ("good.srt", [7])]), ∀ cx tx,
      lookupFile [("bad.srt", [255]), ("good.srt", [7])] x = some cx →
      rejects255.decode cx = some tx →
      lookupFile (recode ⟨[("bad.srt", [255]), ("good.srt", [7])], [], []⟩ none
        rejects255 rejects255 "w1250" "utf8" 0 none false).1.files x
        = some (rejects255.encode tx)) :=
  recode_decode_error_skips ⟨[("bad.srt", [255]), ("good.srt", [7])], [], []⟩
    rejects255 rejects255 "w1250" "utf8" 0 none false "bad.srt" [255]
    (by decide) rfl (by decide) (by decide) (by decide) (by decide)

end Subfix